import Mathlib

/-!
Verification development for the email-open-tracking subsystem of
`salmonumbrella/fastmail-cli`.

Shallow embedding of:
* the Cloudflare worker (`tools/email-tracking-worker/src/index.ts` and its
  `crypto` module): pixel ingestion, rate limiting, query handler, and the
  multi-key versioned/legacy decryption;
* the Go `internal/tracking` package: `EncryptWithVersion`,
  `DecryptWithVersion`, `SaveTrackingKeys`, `normalizeTrackingVersion`,
  the sorted-version helpers, and the `email track rotate` command's key
  computation.

Modelling conventions, stated once here:
* Bytes are `List Nat`.  Base64url encoding/decoding is a bijection between
  blob strings and decoded byte lists and is treated as the identity
  boundary: every blob appears in its decoded form.
* AES-256-GCM is modelled as an idealized authenticated cipher: `gcmSeal`
  appends a 16-byte tag to the plaintext, `gcmOpen` rejects inputs shorter
  than the tag and inputs whose tag does not match, and otherwise recovers
  the plaintext.  Lengths (12-byte nonce, 16-byte tag) match the sources.
* JSON marshalling of the pixel payload is modelled as an injective
  length-prefixed serialization with an executable partial inverse
  (`jsonMarshal` / `jsonUnmarshal`); the claims depend only on the
  round-trip property and on framing lengths, not on JSON text.
* External stores (Workers KV, D1, the OS keyring) are modelled with
  explicit state or with explicit per-call outcomes (`Except`), so that a
  thrown `StorageError` is an `Except.error` propagating through the same
  control flow as in the source.
-/

namespace Tracking

/-- Byte strings, as lists of naturals. -/
abbrev Bytes := List Nat

/-- `IV_LENGTH` from the worker crypto module (AES-GCM nonce size). -/
def IV_LENGTH : Nat := 12

/-- `VERSION_BYTE_LENGTH` from the worker crypto module. -/
def VERSION_BYTE_LENGTH : Nat := 1

/-- AES-GCM authentication tag size (`gcmTagSize` in Go's `crypto/cipher`). -/
def gcmTagSize : Nat := 16

/-- AES-GCM nonce size (`aead.NonceSize()` in Go, `IV_LENGTH` in the worker). -/
def gcmNonceSize : Nat := 12

/-- Modelled: the 16-byte GCM authentication tag, an arbitrary function of
key, nonce and plaintext.  Only its length and its determinism matter. -/
def authTag (key nonce pt : Bytes) : Bytes :=
  List.replicate gcmTagSize ((key.sum + 2 * nonce.sum + 3 * pt.sum + pt.length) % 256)

/-- Modelled: idealized AES-GCM seal; ciphertext is plaintext followed by the
16-byte tag, so `(gcmSeal k n pt).length = pt.length + 16` as in AES-GCM. -/
def gcmSeal (key nonce pt : Bytes) : Bytes := pt ++ authTag key nonce pt

/-- Modelled: idealized AES-GCM open.  Mirrors Go `gcm.Open` / WebCrypto
`subtle.decrypt`: inputs shorter than the tag fail, a tag mismatch fails,
otherwise the plaintext is recovered. -/
def gcmOpen (key nonce ct : Bytes) : Option Bytes :=
  if ct.length < gcmTagSize then none
  else
    let pt := ct.take (ct.length - gcmTagSize)
    let tag := ct.drop (ct.length - gcmTagSize)
    if tag = authTag key nonce pt then some pt else none

/-- `PixelPayload` (Go struct / worker TS type): recipient `r`, subject hash
`s`, sent-at epoch seconds `t`. -/
structure PixelPayload where
  r : String
  s : String
  t : Int
deriving DecidableEq, Repr

/-- Length-prefixed encoding of a string, used by the modelled JSON
serialization. -/
def encStr (s : String) : Bytes := s.data.length :: s.data.map Char.toNat

/-- Modelled: `JSON.stringify` / Go `json.Marshal` of a `PixelPayload`, as an
injective serialization (two length-prefixed strings, then sign and
magnitude of the timestamp). -/
def jsonMarshal (p : PixelPayload) : Bytes :=
  encStr p.r ++ encStr p.s ++ [if p.t < 0 then 1 else 0, p.t.natAbs]

/-- Partial inverse of `encStr`; returns the decoded string and the rest. -/
def decStr : Bytes → Option (String × Bytes)
  | [] => none
  | n :: rest =>
    if n ≤ rest.length then
      some (String.mk ((rest.take n).map Char.ofNat), rest.drop n)
    else none

/-- Modelled: `JSON.parse` / Go `json.Unmarshal` into a `PixelPayload`;
partial inverse of `jsonMarshal`, failing on anything else. -/
def jsonUnmarshal (b : Bytes) : Option PixelPayload :=
  match decStr b with
  | none => none
  | some (r, b1) =>
    match decStr b1 with
    | none => none
    | some (s, b2) =>
      match b2 with
      | [sign, mag] =>
        some ⟨r, s, if sign = 1 then -(mag : Int) else (mag : Int)⟩
      | _ => none

/-- Errors thrown by the worker crypto module (TypeScript).  `blobTooShort`
is the literal message thrown by both framing checks; `opError` is the
WebCrypto `OperationError` on authentication failure; `unableToDecrypt` is
the final generic error when no attempt produced an error of its own. -/
inductive TSErr
  | blobTooShort
  | versionMismatch
  | opError
  | parseError
  | keyDataError
  | unableToDecrypt
deriving DecidableEq, Repr

/-- Worker `importKey`: WebCrypto accepts AES keys of 16, 24 or 32 bytes and
throws otherwise.  Key base64 decoding is the identity boundary. -/
def importKey (keyBytes : Bytes) : Except TSErr Bytes :=
  if keyBytes.length = 16 ∨ keyBytes.length = 24 ∨ keyBytes.length = 32 then
    Except.ok keyBytes
  else Except.error TSErr.keyDataError

/-- Worker `decryptPayload`: GCM-open then JSON-parse. -/
def decryptPayload (key iv ciphertext : Bytes) : Except TSErr PixelPayload :=
  match gcmOpen key iv ciphertext with
  | none => Except.error TSErr.opError
  | some pt =>
    match jsonUnmarshal pt with
    | none => Except.error TSErr.parseError
    | some p => Except.ok p

/-- Worker `decryptWithVersionedPayload`: length check, version-byte check,
then decrypt with `iv = combined[1..13)`, `ct = combined[13..]`. -/
def decryptWithVersionedPayload (combined : Bytes) (keyBytes : Bytes) (version : Nat) :
    Except TSErr PixelPayload :=
  if combined.length < VERSION_BYTE_LENGTH + IV_LENGTH then Except.error TSErr.blobTooShort
  else if combined.head? ≠ some version then Except.error TSErr.versionMismatch
  else
    match importKey keyBytes with
    | Except.error e => Except.error e
    | Except.ok key =>
      decryptPayload key ((combined.drop VERSION_BYTE_LENGTH).take IV_LENGTH)
        (combined.drop (VERSION_BYTE_LENGTH + IV_LENGTH))

/-- Worker `decryptWithoutVersion` (legacy framing: no version byte). -/
def decryptWithoutVersion (combined : Bytes) (keyBytes : Bytes) :
    Except TSErr PixelPayload :=
  if combined.length < IV_LENGTH then Except.error TSErr.blobTooShort
  else
    match importKey keyBytes with
    | Except.error e => Except.error e
    | Except.ok key =>
      decryptPayload key (combined.take IV_LENGTH) (combined.drop IV_LENGTH)

/-- The worker's version→key record (`Record<number, string>`), as an
association list of versions to decoded key bytes. -/
abbrev KeyMap := List (Nat × Bytes)

/-- Lookup in the version→key record. -/
def keyLookup (m : KeyMap) (v : Nat) : Option Bytes :=
  (m.find? (fun e => e.1 == v)).map (fun e => e.2)

/-- JavaScript truthiness of `keysByVersion[v]`: the key must be present and
be a non-empty string (an empty string is falsy; an empty base64 string
decodes to the empty byte list). -/
def keyTruthy (m : KeyMap) (v : Nat) : Bool :=
  match keyLookup m v with
  | some k => !k.isEmpty
  | none => false

/-- First `sortedVersions` insertion: `currentVersion` when it is truthy
(nonzero) and has a truthy key. -/
def hintCandidate (keysByVersion : KeyMap) : Option Nat → List Nat
  | some cv => if cv ≠ 0 ∧ keyTruthy keysByVersion cv = true then [cv] else []
  | none => []

/-- Second `sortedVersions` insertion: the blob's embedded version byte when
the blob has more than the version byte and that version's key is truthy. -/
def embeddedCandidate (keysByVersion : KeyMap) (combined : Bytes) : List Nat :=
  match combined.head? with
  | some v0 =>
    if VERSION_BYTE_LENGTH < combined.length ∧ keyTruthy keysByVersion v0 = true then [v0]
    else []
  | none => []

/-- The versions inserted into the worker `sortedVersions` map, in insertion
order: (a) the hint, (b) the blob's embedded version byte, (c) every
positive integer key of the record. -/
def sortedVersionsCandidates (keysByVersion : KeyMap) (combined : Bytes)
    (currentVersion : Option Nat) : List Nat :=
  hintCandidate keysByVersion currentVersion ++
  embeddedCandidate keysByVersion combined ++
  (keysByVersion.map (fun e => e.1)).filter (fun v => 0 < v)

/-- Worker `sortedVersions`: the candidate versions are collected into a
`Map` (which de-duplicates) and the map's keys are then sorted in ascending
numeric order; since the final list is sorted, the map's insertion order is
immaterial and only the de-duplicated set remains. -/
def sortedVersions (keysByVersion : KeyMap) (combined : Bytes) (currentVersion : Option Nat) :
    List Nat :=
  List.insertionSort (fun a b => a ≤ b)
    (sortedVersionsCandidates keysByVersion combined currentVersion).dedup

/-- First pass of `decryptWithKeys`: try each candidate version, skipping
falsy keys, remembering the last error; `Sum.inl` is a successful payload,
`Sum.inr` the last error (if any attempt ran). -/
def versionedPass (keysByVersion : KeyMap) (combined : Bytes) :
    List Nat → Option TSErr → PixelPayload ⊕ Option TSErr
  | [], lastErr => Sum.inr lastErr
  | v :: rest, lastErr =>
    match keyLookup keysByVersion v with
    | none => versionedPass keysByVersion combined rest lastErr
    | some k =>
      if k.isEmpty then versionedPass keysByVersion combined rest lastErr
      else
        match decryptWithVersionedPayload combined k v with
        | Except.ok p => Sum.inl p
        | Except.error e => versionedPass keysByVersion combined rest (some e)

/-- First-occurrence de-duplication of key values, mirroring
`new Set(Object.values(keysByVersion))` iteration order. -/
def distinctKeysAux (seen : List Bytes) : List Bytes → List Bytes
  | [] => []
  | k :: rest =>
    if k ∈ seen then distinctKeysAux seen rest
    else k :: distinctKeysAux (k :: seen) rest

/-- Distinct key values in first-occurrence order. -/
def distinctKeys (ks : List Bytes) : List Bytes := distinctKeysAux [] ks

/-- Second pass of `decryptWithKeys`: legacy (no version byte) attempt once
per distinct key value. -/
def legacyPass (combined : Bytes) :
    List Bytes → Option TSErr → PixelPayload ⊕ Option TSErr
  | [], lastErr => Sum.inr lastErr
  | k :: rest, lastErr =>
    match decryptWithoutVersion combined k with
    | Except.ok p => Sum.inl p
    | Except.error e => legacyPass combined rest (some e)

/-- Worker `decryptWithKeys`: decode the blob (identity boundary), run the
versioned pass over `sortedVersions`, then the legacy pass over distinct
key values, and finally rethrow the last error or the generic one. -/
def decryptWithKeys (blob : Bytes) (keysByVersion : KeyMap) (currentVersion : Option Nat) :
    Except TSErr PixelPayload :=
  let combined := blob
  match versionedPass keysByVersion combined
      (sortedVersions keysByVersion combined currentVersion) none with
  | Sum.inl p => Except.ok p
  | Sum.inr lastErr =>
    match legacyPass combined (distinctKeys (keysByVersion.map (fun e => e.2))) lastErr with
    | Sum.inl p => Except.ok p
    | Sum.inr (some e) => Except.error e
    | Sum.inr none => Except.error TSErr.unableToDecrypt

/-- Worker `encrypt`: seal the JSON-encoded payload, then prepend the version
byte (`Uint8Array` assignment truncates modulo 256) and the random 12-byte
nonce, which the caller supplies explicitly here (`crypto.getRandomValues`). -/
def encrypt (payload : PixelPayload) (keyBytes : Bytes) (version : Nat) (iv : Bytes) :
    Except TSErr Bytes :=
  match importKey keyBytes with
  | Except.error e => Except.error e
  | Except.ok key =>
    Except.ok ((version % 256) :: (iv ++ gcmSeal key iv (jsonMarshal payload)))

/-- Errors returned by the Go `tracking` crypto functions.
`ciphertextTooShort` is `errCiphertextTooShort` ("ciphertext too short");
`keyVersionMismatch` is the "key version mismatch" error; `decryptErr` is a
failed `aead.Open` (authentication failure); `newCipherErr` a bad AES key
length. -/
inductive GoErr
  | newCipherErr
  | ciphertextTooShort
  | keyVersionMismatch
  | decryptErr
  | unmarshalErr
deriving DecidableEq, Repr

/-- Go `aes.NewCipher`: accepts 16/24/32-byte keys.  Key base64 decoding is
the identity boundary. -/
def aesNewCipher (key : Bytes) : Except GoErr Bytes :=
  if key.length = 16 ∨ key.length = 24 ∨ key.length = 32 then Except.ok key
  else Except.error GoErr.newCipherErr

/-- Go `defaultTrackingKeyVersion` (a byte). -/
def defaultTrackingKeyVersionByte : Nat := 1

/-- Version byte actually used by the Go crypto functions: the argument is a
Go `byte` (hence the `% 256`), and `0` falls back to the default version. -/
def normByteVersion (keyVersion : Nat) : Nat :=
  if keyVersion % 256 = 0 then defaultTrackingKeyVersionByte else keyVersion % 256

/-- Go `EncryptWithVersion`: marshal the payload, seal with a fresh 12-byte
nonce (supplied explicitly here, standing for `rand.Read`), and prepend the
version byte.  `aead.Seal(nonce, nonce, plaintext, nil)` yields
`nonce ‖ ciphertext ‖ tag`; base64 encoding is the identity boundary. -/
def EncryptWithVersion (payload : PixelPayload) (key : Bytes) (keyVersion : Nat) (nonce : Bytes) :
    Except GoErr Bytes :=
  let kv := normByteVersion keyVersion
  match aesNewCipher key with
  | Except.error e => Except.error e
  | Except.ok block =>
    Except.ok (kv :: (nonce ++ gcmSeal block nonce (jsonMarshal payload)))

/-- Go `DecryptWithVersion`: decode (identity boundary), check non-emptiness,
check the version byte, build the cipher, check the nonce-size bound, then
GCM-open and unmarshal. -/
def DecryptWithVersion (blob : Bytes) (key : Bytes) (keyVersion : Nat) :
    Except GoErr PixelPayload :=
  let kv := normByteVersion keyVersion
  let raw := blob
  if raw.length < 1 then Except.error GoErr.ciphertextTooShort
  else if raw.head? ≠ some kv then Except.error GoErr.keyVersionMismatch
  else
    match aesNewCipher key with
    | Except.error e => Except.error e
    | Except.ok block =>
      let ciphertext := raw.drop 1
      if ciphertext.length < gcmNonceSize then Except.error GoErr.ciphertextTooShort
      else
        match gcmOpen block (ciphertext.take gcmNonceSize) (ciphertext.drop gcmNonceSize) with
        | none => Except.error GoErr.decryptErr
        | some plaintext =>
          match jsonUnmarshal plaintext with
          | none => Except.error GoErr.unmarshalErr
          | some p => Except.ok p

/-- Go `defaultTrackingKeyVersionInt`. -/
def defaultTrackingKeyVersionInt : Int := 1

/-- Go `normalizeTrackingVersion`: non-positive versions fall back to the
default version 1; everything else (including versions above 255) passes
through unchanged. -/
def normalizeTrackingVersion (version : Int) : Int :=
  if version ≤ 0 then defaultTrackingKeyVersionInt else version

/-- A Go `map[int]string` of version→key, as an association list whose keys
are unique (Go map key uniqueness is a hypothesis where it matters). -/
abbrev GoKeyMap := List (Int × String)

/-- Go map lookup `trackingKeys[version]`. -/
def goLookup (m : GoKeyMap) (v : Int) : Option String :=
  (m.find? (fun e => e.1 == v)).map (fun e => e.2)

/-- Go `sortedTrackingVersionsFromMap`: the positive keys of the map, in
ascending order (the `dedup` mirrors Go map key uniqueness in the
association-list model). -/
def sortedTrackingVersionsFromMap (trackingKeys : GoKeyMap) : List Int :=
  List.insertionSort (fun a b => a ≤ b)
    (((trackingKeys.map (fun e => e.1)).filter (fun v => 0 < v)).dedup)

/-- Go `trackingKeyName`: `"tracking_key_v" + version`. -/
def trackingKeyName (version : Int) : String := "tracking_key_v" ++ toString version

/-- Go `strings.TrimSpace`, modelled on the character list (leading and
trailing whitespace removed). -/
def trimSpace (s : String) : String :=
  String.mk (((s.data.dropWhile Char.isWhitespace).reverse.dropWhile
    Char.isWhitespace).reverse)

/-- Errors returned by `SaveTrackingKeys` before anything is persisted. -/
inductive SaveErr
  | missingAdminKey
  | missingTrackingKey
  | invalidCurrentVersion
deriving DecidableEq, Repr

/-- Go `SaveTrackingKeys`: validate the admin key, normalize the current
version, require a non-blank key at the normalized current version, then
persist (modelled as the ordered list of keyring `Set` items): every
non-blank versioned key under `tracking_key_v<v>`, the current version's
key under the unversioned legacy slot `tracking_key`, the current-version
pointer, and the admin key.  Keyring open/set failures are outside the
model; the result is what a successful run persists.  `saveKeyItems` is the
per-version loop: every version with a non-blank key is stored under
`tracking_key_v<v>`. -/
def saveKeyItems (trackingKeys : GoKeyMap) : List (String × String) :=
  (sortedTrackingVersionsFromMap trackingKeys).filterMap (fun v =>
    match goLookup trackingKeys v with
    | none => none
    | some key => if trimSpace key = "" then none else some (trackingKeyName v, key))

/-- Go `SaveTrackingKeys` main body (see the doc comment above
`saveKeyItems` for the per-version loop). -/
def SaveTrackingKeys (trackingKeys : GoKeyMap) (adminKey : String) (currentVersion : Int) :
    Except SaveErr (List (String × String)) :=
  if adminKey = "" then Except.error SaveErr.missingAdminKey
  else
    let cv := normalizeTrackingVersion currentVersion
    if cv ≤ 0 then Except.error SaveErr.invalidCurrentVersion
    else
      match goLookup trackingKeys cv with
      | none => Except.error SaveErr.missingTrackingKey
      | some currentKey =>
        if trimSpace currentKey = "" then Except.error SaveErr.missingTrackingKey
        else if (sortedTrackingVersionsFromMap trackingKeys).isEmpty then
          Except.error SaveErr.missingTrackingKey
        else
          Except.ok (saveKeyItems trackingKeys ++
            [("tracking_key", currentKey),
             ("tracking_key_current_version", toString cv),
             ("admin_key", adminKey)])

/-- The rotate command's next-version computation: start from the config's
current version (1 if non-positive), take the maximum over the active
versions, and add one. -/
def rotateNextVersion (activeVersions : List Int) (currentVersion : Int) : Int :=
  (activeVersions.foldl (fun acc v => if acc < v then v else acc)
    (if currentVersion ≤ 0 then 1 else currentVersion)) + 1

/-- The rotate command's updated key map: for each updated version, the new
key at `nextVersion` and the previously loaded key elsewhere (Go reads a
missing map entry as `""`). -/
def rotateUpdatedKeys (trackingKeys : GoKeyMap) (nextVersion : Int) (newKey : String)
    (updatedVersions : List Int) : GoKeyMap :=
  updatedVersions.map (fun v =>
    if v == nextVersion then (v, newKey) else (v, (goLookup trackingKeys v).getD ""))

/-- Core of the `email track rotate` command (`newEmailTrackRotateCmd`):
given the config's version list and current version, the keys loaded from
the keyring, and the freshly generated key (`GenerateKey`, randomness
supplied by the caller), compute the next current version, the updated
sorted version list, and the updated key map passed to `SaveTrackingKeys`. -/
def rotateCompute (cfgVersions : List Int) (currentVersion : Int)
    (trackingKeys : GoKeyMap) (newKey : String) : Int × List Int × GoKeyMap :=
  let activeVersions := if cfgVersions.isEmpty then [currentVersion] else cfgVersions
  let nextVersion := rotateNextVersion activeVersions currentVersion
  let updatedVersions :=
    List.insertionSort (fun a b => a ≤ b) ((trackingKeys.map (fun e => e.1)) ++ [nextVersion])
  (nextVersion, updatedVersions, rotateUpdatedKeys trackingKeys nextVersion newKey updatedVersions)

/-- `RATE_LIMIT_WINDOW_SECONDS` from the worker. -/
def RATE_LIMIT_WINDOW_SECONDS : Nat := 60 * 60

/-- `RATE_LIMIT_MAX_REQUESTS` from the worker. -/
def RATE_LIMIT_MAX_REQUESTS : Nat := 100

/-- Workers KV contents, as a partial map from keys to stored strings.  TTL
expiry is outside the model: the limiter keys counters by hour bucket, so a
fresh bucket reads an absent key exactly as an expired one would. -/
abbrev KVState := String → Option String

/-- JavaScript whitespace accepted by `parseInt`. -/
def jsWhitespace (c : Char) : Bool :=
  c = ' ' ∨ c = '\t' ∨ c = '\n' ∨ c = '\r' ∨ c = '\x0b' ∨ c = '\x0c'

/-- Maximal leading run of decimal digits, as a number; `none` when there is
no leading digit (the `NaN` case). -/
def parseDigitsNat (cs : List Char) : Option Nat :=
  let ds := cs.takeWhile (fun c => '0' ≤ c ∧ c ≤ '9')
  if ds.isEmpty then none
  else some (ds.foldl (fun acc c => acc * 10 + (c.toNat - 48)) 0)

/-- JavaScript `parseInt(s, 10)`: skip leading whitespace, an optional sign,
then the maximal run of decimal digits; `none` models `NaN`. -/
def parseIntJS (s : String) : Option Int :=
  match s.data.dropWhile jsWhitespace with
  | '-' :: rest => (parseDigitsNat rest).map (fun n => -(n : Int))
  | '+' :: rest => (parseDigitsNat rest).map (fun n => (n : Int))
  | cs => (parseDigitsNat cs).map (fun n => (n : Int))

/-- The worker's rate-counter key `rate:<ip>:<hourBucket>`. -/
def rateKey (ip : String) (hourBucket : Nat) : String :=
  "rate:" ++ ip ++ ":" ++ Nat.repr hourBucket

/-- Worker `isRateLimited`: no KV binding or an unknown identifier bypasses
limiting; otherwise read the counter for the fixed hour bucket, coerce
`NaN`/negative to zero (`Math.max(parsed, 0)` via `Int.toNat`), report
limited without writing when the count reached the threshold, and otherwise
write the incremented count and report not limited.  Returns the updated KV
state alongside the verdict. -/
def rateLimitStep (st : KVState) (ip : String) (nowMs : Nat) : Bool × KVState :=
  if ip = "unknown" then (false, st)
  else
    let hourBucket := nowMs / (RATE_LIMIT_WINDOW_SECONDS * 1000)
    let k := rateKey ip hourBucket
    let parsed := parseIntJS ((st k).getD "0")
    let count : Nat :=
      match parsed with
      | none => 0
      | some z => z.toNat
    if RATE_LIMIT_MAX_REQUESTS ≤ count then (true, st)
    else (false, fun q => if q = k then some (Nat.repr (count + 1)) else st q)

/-- Worker `isRateLimited` including the `!env.RATE_KV` guard: without a KV
binding the limiter fails open. -/
def isRateLimited (kv : Option KVState) (ip : String) (nowMs : Nat) :
    Bool × Option KVState :=
  match kv with
  | none => (false, none)
  | some st => ((rateLimitStep st ip nowMs).1, some (rateLimitStep st ip nowMs).2)

/-- Sequential `isRateLimited` calls at the given timestamps, threading the
KV state. -/
def rateCalls (kv : Option KVState) (ip : String) : List Nat → List Bool × Option KVState
  | [] => ([], kv)
  | t :: ts =>
    let r := isRateLimited kv ip t
    let rest := rateCalls r.2 ip ts
    (r.1 :: rest.1, rest.2)

/-- A `StorageError`: a KV or D1 call that throws. -/
inductive StoreErr
  | storage
deriving DecidableEq, Repr

/-- Responses the worker returns.  `pixel` is the fixed 1×1 GIF success
response.  Modelled from the spec: `pixelResponse` (the worker's
`pixel.ts` is not in the sources) always returns the same fixed-size image
payload with success status, so it is a single constant constructor. -/
inductive WResponse
  | pixel
  | plain (status : Nat) (body : String)
deriving DecidableEq, Repr

/-- Outcomes of the three store interactions `handlePixel` performs, each of
which may throw a `StorageError`: the rate-limit check (KV read/write), the
duplicate check (D1 select), and the final insert (D1 insert). -/
structure PixelStoreOutcomes where
  rateLimitedResult : Except StoreErr Bool
  dedupResult : Except StoreErr Bool
  insertResult : Except StoreErr Unit

/-- Worker `handlePixel` control flow: a rate-limited request, a failed
decryption, and a duplicate open each short-circuit to the pixel response;
only the decryption is inside a try/catch, so a `StorageError` from the
rate-limit check, the duplicate check, or the insert propagates as an
`Except.error` out of the handler. -/
def handlePixel (out : PixelStoreOutcomes) (blob : Bytes) (keys : KeyMap)
    (currentVersion : Option Nat) : Except StoreErr WResponse :=
  match out.rateLimitedResult with
  | Except.error e => Except.error e
  | Except.ok limited =>
    if limited then Except.ok WResponse.pixel
    else
      match decryptWithKeys blob keys currentVersion with
      | Except.error _ => Except.ok WResponse.pixel
      | Except.ok _payload =>
        match out.dedupResult with
        | Except.error e => Except.error e
        | Except.ok dup =>
          if dup then Except.ok WResponse.pixel
          else
            match out.insertResult with
            | Except.error e => Except.error e
            | Except.ok _ => Except.ok WResponse.pixel

/-- The worker `fetch` wrapper around the pixel route: any error escaping
`handlePixel` is caught at the top level and turned into a 500 "Internal
Error" response. -/
def fetchPixel (out : PixelStoreOutcomes) (blob : Bytes) (keys : KeyMap)
    (currentVersion : Option Nat) : WResponse :=
  match handlePixel out blob keys currentVersion with
  | Except.ok r => r
  | Except.error _ => WResponse.plain 500 "Internal Error"

/-- A row of the D1 `opens` table as read by the query handler (`is_bot` is
an integer column holding 0 or 1). -/
structure OpenRow where
  tracking_id : Bytes
  opened_at : String
  ip : String
  city : Option String
  region : Option String
  country : Option String
  timezone : Option String
  is_bot : Nat
  bot_type : Option String
deriving DecidableEq, Repr

/-- The location object emitted by the query handler when a city is present. -/
structure Location where
  city : String
  region : Option String
  country : Option String
  timezone : Option String
deriving DecidableEq, Repr

/-- One element of the query response's `opens` array. -/
structure OpenEntry where
  openedAt : String
  isBot : Bool
  botType : Option String
  location : Option Location
deriving DecidableEq, Repr

/-- The query handler's row mapping: `is_bot === 1`, and a location object
only when `row.city` is truthy (present and non-empty). -/
def rowToEntry (row : OpenRow) : OpenEntry :=
  { openedAt := row.opened_at
    isBot := row.is_bot == 1
    botType := row.bot_type
    location :=
      match row.city with
      | some c =>
        if c = "" then none
        else some { city := c, region := row.region, country := row.country,
                    timezone := row.timezone }
      | none => none }

/-- The D1 query `SELECT ... FROM opens WHERE tracking_id = ? ORDER BY
opened_at ASC`, modelled as filter plus a stable ascending sort on the
`opened_at` text column. -/
def queryRows (db : List OpenRow) (blob : Bytes) : List OpenRow :=
  List.insertionSort (fun a b => a.opened_at ≤ b.opened_at)
    (db.filter (fun r => r.tracking_id == blob))

instance : IsTotal OpenRow (fun a b => a.opened_at ≤ b.opened_at) :=
  ⟨fun a b => le_total a.opened_at b.opened_at⟩

instance : IsTrans OpenRow (fun a b => a.opened_at ≤ b.opened_at) :=
  ⟨fun _ _ _ hab hbc => le_trans hab hbc⟩

/-- The JSON body of a successful `/q/:blob` response.  ISO-8601 date
formatting is the identity boundary: `sent_at_ms` carries the millisecond
value `payload.t * 1000` that `new Date(...)` renders. -/
structure QueryResult where
  tracking_id : Bytes
  recipient : String
  sent_at_ms : Int
  opens : List OpenEntry
  total_opens : Nat
  human_opens : Nat
  first_human_open : Option OpenEntry
deriving DecidableEq, Repr

/-- Worker `handleQuery`: decrypt the blob with the configured key set (a
failure is a 400 response, modelled as the error status), then load the
blob's open rows in ascending `opened_at` order, map them, and assemble the
response with the human-open statistics. -/
def handleQuery (db : List OpenRow) (blob : Bytes) (keys : KeyMap)
    (currentVersion : Option Nat) : Except Nat QueryResult :=
  match decryptWithKeys blob keys currentVersion with
  | Except.error _ => Except.error 400
  | Except.ok payload =>
    let opens := (queryRows db blob).map rowToEntry
    let humans := opens.filter (fun o => !o.isBot)
    Except.ok
      { tracking_id := blob
        recipient := payload.r
        sent_at_ms := payload.t * 1000
        opens := opens
        total_opens := opens.length
        human_opens := humans.length
        first_human_open := humans.head? }

/-- Sample payload used by concrete witnesses. -/
def samplePayload : PixelPayload := ⟨"a", "b", 5⟩

/-- Sample 32-byte key used by concrete witnesses. -/
def sampleKey : Bytes := List.replicate 32 0

/-- Sample 12-byte nonce used by concrete witnesses. -/
def sampleNonce : Bytes := List.replicate 12 1

/-- Sample well-formed encrypted blob (version byte 3) used by witnesses. -/
def sampleBlob : Bytes :=
  3 :: (sampleNonce ++ gcmSeal sampleKey sampleNonce (jsonMarshal samplePayload))

/-! Foundational lemmas about the modelled primitives. -/

theorem authTag_length (key nonce pt : Bytes) : (authTag key nonce pt).length = gcmTagSize := by
  simp [authTag]

theorem gcmSeal_length (key nonce pt : Bytes) :
    (gcmSeal key nonce pt).length = pt.length + gcmTagSize := by
  simp [gcmSeal, authTag]

theorem gcmOpen_gcmSeal (key nonce pt : Bytes) :
    gcmOpen key nonce (gcmSeal key nonce pt) = some pt := by
  have hlen := gcmSeal_length key nonce pt
  have hnot : ¬ (gcmSeal key nonce pt).length < gcmTagSize := by omega
  have hsub : (gcmSeal key nonce pt).length - gcmTagSize = pt.length := by omega
  simp only [gcmOpen, hnot, if_false, hsub]
  have htake : (gcmSeal key nonce pt).take pt.length = pt := by
    simpa [gcmSeal] using List.take_left pt (authTag key nonce pt)
  have hdrop : (gcmSeal key nonce pt).drop pt.length = authTag key nonce pt := by
    simpa [gcmSeal] using List.drop_left pt (authTag key nonce pt)
  rw [htake, hdrop, if_pos rfl]

theorem decStr_encStr (s : String) (rest : Bytes) :
    decStr (encStr s ++ rest) = some (s, rest) := by
  simp only [encStr, List.cons_append, decStr]
  have h1 : s.data.length ≤ (s.data.map Char.toNat ++ rest).length := by simp
  rw [if_pos h1]
  have h2 : (s.data.map Char.toNat ++ rest).take s.data.length = s.data.map Char.toNat := by
    simpa using List.take_left (s.data.map Char.toNat) rest
  have h3 : (s.data.map Char.toNat ++ rest).drop s.data.length = rest := by
    simpa using List.drop_left (s.data.map Char.toNat) rest
  rw [h2, h3]
  have hmap : (s.data.map Char.toNat).map Char.ofNat = s.data := by
    rw [List.map_map]
    simp [Function.comp_def, Char.ofNat_toNat]
  rw [hmap]

theorem jsonUnmarshal_jsonMarshal (p : PixelPayload) :
    jsonUnmarshal (jsonMarshal p) = some p := by
  obtain ⟨r, s, t⟩ := p
  have hsplit : jsonMarshal ⟨r, s, t⟩
      = encStr r ++ (encStr s ++ [if t < 0 then 1 else 0, t.natAbs]) := by
    simp [jsonMarshal, List.append_assoc]
  rw [hsplit]
  simp only [jsonUnmarshal, decStr_encStr]
  rcases lt_or_ge t 0 with ht | ht
  · rw [if_pos ht, if_pos rfl]
    have h1 : -(t.natAbs : Int) = t := by omega
    rw [h1]
  · rw [if_neg (by omega : ¬ t < 0), if_neg (by decide : ¬ (0 : Nat) = 1)]
    have h1 : (t.natAbs : Int) = t := by omega
    rw [h1]

theorem decryptWithVersionedPayload_wf (p : PixelPayload) (K : Bytes) (V : Nat) (nonce : Bytes)
    (hK : K.length = 32) (hnonce : nonce.length = 12) :
    decryptWithVersionedPayload (V :: (nonce ++ gcmSeal K nonce (jsonMarshal p))) K V
      = Except.ok p := by
  have hlen : (V :: (nonce ++ gcmSeal K nonce (jsonMarshal p))).length
      = 29 + (jsonMarshal p).length := by
    simp [hnonce, gcmSeal_length, gcmTagSize]
    omega
  have h1 : ¬ (V :: (nonce ++ gcmSeal K nonce (jsonMarshal p))).length
      < VERSION_BYTE_LENGTH + IV_LENGTH := by
    rw [hlen]
    simp only [VERSION_BYTE_LENGTH, IV_LENGTH]
    omega
  have h2 : ¬ (V :: (nonce ++ gcmSeal K nonce (jsonMarshal p))).head? ≠ some V := by simp
  have hkey : importKey K = Except.ok K := by simp [importKey, hK]
  have hiv : ((V :: (nonce ++ gcmSeal K nonce (jsonMarshal p))).drop
      VERSION_BYTE_LENGTH).take IV_LENGTH = nonce := by
    show (nonce ++ gcmSeal K nonce (jsonMarshal p)).take 12 = nonce
    rw [← hnonce, List.take_left]
  have hct : (V :: (nonce ++ gcmSeal K nonce (jsonMarshal p))).drop
      (VERSION_BYTE_LENGTH + IV_LENGTH) = gcmSeal K nonce (jsonMarshal p) := by
    show (nonce ++ gcmSeal K nonce (jsonMarshal p)).drop 12 = _
    rw [← hnonce, List.drop_left]
  unfold decryptWithVersionedPayload
  rw [if_neg h1, if_neg h2, hkey, hiv, hct]
  simp [decryptPayload, gcmOpen_gcmSeal, jsonUnmarshal_jsonMarshal]

theorem sortedVersions_single (V : Nat) (K : Bytes) (blob : Bytes)
    (hV : 1 ≤ V) (hK : K ≠ []) (hhead : blob.head? = some V) (hlen : 1 < blob.length) :
    sortedVersions [(V, K)] blob (some V) = [V] := by
  have hKempty : K.isEmpty = false := by
    cases K with
    | nil => exact absurd rfl hK
    | cons a l => rfl
  have htruthy : keyTruthy [(V, K)] V = true := by
    simp [keyTruthy, keyLookup, hKempty]
  have hVne : V ≠ 0 := by omega
  have hpos : 0 < V := by omega
  have hdd : ([V, V, V] : List Nat).dedup = [V] := by
    rw [List.dedup_cons_of_mem (by simp), List.dedup_cons_of_mem (by simp),
      List.dedup_cons_of_not_mem (by simp), List.dedup_nil]
  have h1 : hintCandidate [(V, K)] (some V) = [V] := by
    simp [hintCandidate, hVne, htruthy]
  have h2 : embeddedCandidate [(V, K)] blob = [V] := by
    simp [embeddedCandidate, hhead, VERSION_BYTE_LENGTH, hlen, htruthy]
  have h3 : (([(V, K)] : KeyMap).map (fun e => e.1)).filter (fun v => 0 < v) = [V] := by
    simp [hpos]
  unfold sortedVersions sortedVersionsCandidates
  rw [h1, h2, h3, show ([V] ++ [V] ++ [V] : List Nat) = [V, V, V] from rfl, hdd]
  rfl

/-- C2: for every payload `P`, every 32-byte key `K`, every version
`V ∈ [1,255]`, and every 12-byte nonce (standing for the encryptor's
randomness), decrypting the blob produced by `Encrypt(P, K, V)` with the
key set `{V: K}` and hint version `V` succeeds and returns a payload equal
to `P` (same recipient, subject hash and sent-at seconds).  The Go
`EncryptWithVersion` and the worker `encrypt` produce the same blob. -/
theorem c2_encrypt_decrypt_roundTrip (p : PixelPayload) (K : Bytes) (V : Nat) (nonce : Bytes)
    (hK : K.length = 32) (hnonce : nonce.length = 12) (hV1 : 1 ≤ V) (hV2 : V ≤ 255) :
    ∃ blob, EncryptWithVersion p K V nonce = Except.ok blob ∧
      encrypt p K V nonce = Except.ok blob ∧
      decryptWithKeys blob [(V, K)] (some V) = Except.ok p := by
  have hVmod : V % 256 = V := Nat.mod_eq_of_lt (by omega)
  have hnorm : normByteVersion V = V := by
    unfold normByteVersion defaultTrackingKeyVersionByte
    rw [hVmod, if_neg (by omega)]
  refine ⟨V :: (nonce ++ gcmSeal K nonce (jsonMarshal p)), ?_, ?_, ?_⟩
  · unfold EncryptWithVersion
    rw [hnorm, show aesNewCipher K = Except.ok K from by simp [aesNewCipher, hK]]
  · unfold encrypt
    rw [show importKey K = Except.ok K from by simp [importKey, hK], hVmod]
  · have hKne : K ≠ [] := by
      intro h
      rw [h] at hK
      simp at hK
    have hhead : (V :: (nonce ++ gcmSeal K nonce (jsonMarshal p))).head? = some V := rfl
    have hlen1 : 1 < (V :: (nonce ++ gcmSeal K nonce (jsonMarshal p))).length := by
      simp only [List.length_cons, List.length_append, gcmSeal_length, hnonce]
      omega
    have hKempty : K.isEmpty = false := by
      cases K with
      | nil => exact absurd rfl hKne
      | cons a l => rfl
    have hfind : keyLookup [(V, K)] V = some K := by simp [keyLookup]
    unfold decryptWithKeys
    simp [sortedVersions_single V K _ hV1 hKne hhead hlen1, versionedPass, hfind, hKempty,
      decryptWithVersionedPayload_wf p K V nonce hK hnonce]

/-- Witness for C2 at a concrete payload, key, version and nonce. -/
theorem c2_encrypt_decrypt_roundTrip_witness :
    ∃ blob, EncryptWithVersion ⟨"a", "b", 5⟩ (List.replicate 32 0) 3 (List.replicate 12 1)
        = Except.ok blob ∧
      encrypt ⟨"a", "b", 5⟩ (List.replicate 32 0) 3 (List.replicate 12 1) = Except.ok blob ∧
      decryptWithKeys blob [(3, List.replicate 32 0)] (some 3) = Except.ok ⟨"a", "b", 5⟩ :=
  c2_encrypt_decrypt_roundTrip ⟨"a", "b", 5⟩ (List.replicate 32 0) 3 (List.replicate 12 1)
    (by decide) (by decide) (by decide) (by decide)

theorem sortedDedup_sorted (l : List Nat) :
    List.Sorted (fun a b => a ≤ b) (List.insertionSort (fun a b => a ≤ b) l.dedup) :=
  List.sorted_insertionSort _ _

theorem sortedDedup_nodup (l : List Nat) :
    (List.insertionSort (fun a b : Nat => a ≤ b) l.dedup).Nodup :=
  ((List.perm_insertionSort _ l.dedup).symm).nodup (List.nodup_dedup l)

theorem sortedDedup_mem (l : List Nat) (v : Nat) :
    v ∈ List.insertionSort (fun a b => a ≤ b) l.dedup ↔ v ∈ l := by
  rw [(List.perm_insertionSort _ l.dedup).mem_iff, List.mem_dedup]

theorem mem_hintCandidate (keysByVersion : KeyMap) (cvOpt : Option Nat) (v : Nat) :
    v ∈ hintCandidate keysByVersion cvOpt ↔
      ∃ cv, cvOpt = some cv ∧ v = cv ∧ cv ≠ 0 ∧ keyTruthy keysByVersion cv = true := by
  cases cvOpt with
  | none => simp [hintCandidate]
  | some cv =>
    by_cases hc : cv ≠ 0 ∧ keyTruthy keysByVersion cv = true
    · rw [hintCandidate, if_pos hc]
      simp only [List.mem_singleton, Option.some.injEq]
      constructor
      · intro h
        exact ⟨cv, rfl, h, hc.1, hc.2⟩
      · rintro ⟨cv1, hcv1, hv, _, _⟩
        subst hcv1
        exact hv
    · rw [hintCandidate, if_neg hc]
      simp only [List.not_mem_nil, false_iff]
      rintro ⟨cv1, hcv1, hv, hne, htr⟩
      injection hcv1 with h1
      subst h1
      exact hc ⟨hne, htr⟩

theorem mem_embeddedCandidate (keysByVersion : KeyMap) (combined : Bytes) (v : Nat) :
    v ∈ embeddedCandidate keysByVersion combined ↔
      (combined.head? = some v ∧ 1 < combined.length ∧ keyTruthy keysByVersion v = true) := by
  unfold embeddedCandidate
  cases hh : combined.head? with
  | none => simp
  | some v0 =>
    show (v ∈ if VERSION_BYTE_LENGTH < combined.length ∧ keyTruthy keysByVersion v0 = true
        then [v0] else []) ↔ _
    by_cases hc : 1 < combined.length ∧ keyTruthy keysByVersion v0 = true
    · rw [if_pos (show VERSION_BYTE_LENGTH < combined.length ∧ _ from hc)]
      simp only [List.mem_singleton, Option.some.injEq]
      constructor
      · intro h
        subst h
        exact ⟨rfl, hc.1, hc.2⟩
      · rintro ⟨h1, _, _⟩
        exact h1.symm
    · rw [if_neg (show ¬ (VERSION_BYTE_LENGTH < combined.length ∧ _) from hc)]
      simp only [List.not_mem_nil, false_iff]
      rintro ⟨h1, hl, htr⟩
      injection h1 with h1
      subst h1
      exact hc ⟨hl, htr⟩

/-- C3 (amended): `sortedVersions` yields the ascending-sorted,
de-duplicated set of candidate versions — `hintVersion` when it is nonzero
and has a truthy key, the blob's embedded version byte when the blob is
longer than the version byte and that version has a truthy key, and every
positive known version — with no priority given to the hint version: the
final ascending sort erases the insertion order. -/
theorem c3_sortedVersions_sorted_set (keysByVersion : KeyMap) (combined : Bytes)
    (currentVersion : Option Nat) :
    List.Sorted (fun a b => a ≤ b) (sortedVersions keysByVersion combined currentVersion) ∧
    (sortedVersions keysByVersion combined currentVersion).Nodup ∧
    ∀ v, v ∈ sortedVersions keysByVersion combined currentVersion ↔
      ((∃ cv, currentVersion = some cv ∧ v = cv ∧ cv ≠ 0 ∧ keyTruthy keysByVersion cv = true) ∨
       (combined.head? = some v ∧ 1 < combined.length ∧ keyTruthy keysByVersion v = true) ∨
       (v ∈ keysByVersion.map (fun e => e.1) ∧ 0 < v)) := by
  refine ⟨sortedDedup_sorted _, sortedDedup_nodup _, fun v => ?_⟩
  rw [show sortedVersions keysByVersion combined currentVersion
      = List.insertionSort (fun a b => a ≤ b)
        (sortedVersionsCandidates keysByVersion combined currentVersion).dedup from rfl]
  rw [sortedDedup_mem]
  unfold sortedVersionsCandidates
  simp only [List.mem_append, List.mem_filter, decide_eq_true_eq,
    mem_hintCandidate, mem_embeddedCandidate]
  exact or_assoc

/-- C3 counterexample: with keys for versions 1 and 2, hint version 2 (which
has a key), and a blob whose embedded version byte is 1, the candidate list
is `[1, 2]`: the hint version is not the first version attempted, contrary
to the claimed order (hint first, then embedded byte, then the rest). -/
theorem c3_sortedVersions_counterexample :
    keyTruthy [(1, [7]), (2, [8])] 2 = true ∧
    sortedVersions [(1, [7]), (2, [8])] [1, 0] (some 2) = [1, 2] ∧
    (sortedVersions [(1, [7]), (2, [8])] [1, 0] (some 2)).head? ≠ some 2 := by
  decide

/-- C1 (amended): the pixel route returns the same fixed pixel response on
the rate-limited path, the decryption-failure path, the duplicate path and
the success path (for every blob, key set, hint and store verdicts whose
store calls succeed); but a `StorageError` thrown by the rate-limit check,
the duplicate check, or the final insert is not swallowed — it escapes
`handlePixel` to the top-level handler, which returns a 500 "Internal
Error" response instead of the pixel. -/
theorem c1_pixel_response_paths (blob : Bytes) (keys : KeyMap) (cv : Option Nat) :
    (∀ rl dup : Bool,
      fetchPixel ⟨Except.ok rl, Except.ok dup, Except.ok ()⟩ blob keys cv
        = WResponse.pixel) ∧
    (∀ e, fetchPixel ⟨Except.error e, Except.ok false, Except.ok ()⟩ blob keys cv
        = WResponse.plain 500 "Internal Error") ∧
    (∀ e p, decryptWithKeys blob keys cv = Except.ok p →
      fetchPixel ⟨Except.ok false, Except.error e, Except.ok ()⟩ blob keys cv
        = WResponse.plain 500 "Internal Error") ∧
    (∀ e p, decryptWithKeys blob keys cv = Except.ok p →
      fetchPixel ⟨Except.ok false, Except.ok false, Except.error e⟩ blob keys cv
        = WResponse.plain 500 "Internal Error") := by
  refine ⟨?_, ?_, ?_, ?_⟩
  · intro rl dup
    cases rl with
    | true => rfl
    | false =>
      cases hdec : decryptWithKeys blob keys cv with
      | error e => simp [fetchPixel, handlePixel, hdec]
      | ok p =>
        cases dup with
        | true => simp [fetchPixel, handlePixel, hdec]
        | false => simp [fetchPixel, handlePixel, hdec]
  · intro e
    rfl
  · intro e p hdec
    simp [fetchPixel, handlePixel, hdec]
  · intro e p hdec
    simp [fetchPixel, handlePixel, hdec]

/-- Witness for C1 (amended) at the sample blob and key set, which decrypt
successfully, so every store-error path is exercised. -/
theorem c1_pixel_response_paths_witness :
    fetchPixel ⟨Except.ok true, Except.ok false, Except.ok ()⟩ sampleBlob
        [(3, sampleKey)] (some 3) = WResponse.pixel ∧
    fetchPixel ⟨Except.error StoreErr.storage, Except.ok false, Except.ok ()⟩ sampleBlob
        [(3, sampleKey)] (some 3) = WResponse.plain 500 "Internal Error" ∧
    fetchPixel ⟨Except.ok false, Except.error StoreErr.storage, Except.ok ()⟩ sampleBlob
        [(3, sampleKey)] (some 3) = WResponse.plain 500 "Internal Error" ∧
    fetchPixel ⟨Except.ok false, Except.ok false, Except.error StoreErr.storage⟩ sampleBlob
        [(3, sampleKey)] (some 3) = WResponse.plain 500 "Internal Error" := by
  have h := c1_pixel_response_paths sampleBlob [(3, sampleKey)] (some 3)
  exact ⟨h.1 true false, h.2.1 StoreErr.storage,
    h.2.2.1 StoreErr.storage samplePayload rfl,
    h.2.2.2 StoreErr.storage samplePayload rfl⟩

/-- C1 counterexample: a `StorageError` thrown by the rate-limit check is
not swallowed into the neutral pixel response — the worker returns a 500
"Internal Error" response instead. -/
theorem c1_pixel_counterexample :
    fetchPixel ⟨Except.error StoreErr.storage, Except.ok false, Except.ok ()⟩ [] [] none
        = WResponse.plain 500 "Internal Error" ∧
    WResponse.plain 500 "Internal Error" ≠ WResponse.pixel := by
  exact ⟨rfl, by decide⟩

theorem normalizeTrackingVersion_pos (v : Int) : 0 < normalizeTrackingVersion v := by
  unfold normalizeTrackingVersion defaultTrackingKeyVersionInt
  split <;> omega

/-- C4 (amended): `SaveTrackingKeys` fails — persisting nothing — exactly
when the admin key is empty or the key at the normalized current version is
absent or blank, where normalization maps every non-positive version to 1.
A non-positive `newCurrentVersion` is therefore treated as version 1 rather
than rejected, and versions above 255 are not rejected at all. -/
theorem c4_save_validation (trackingKeys : GoKeyMap) (adminKey : String) (v : Int) :
    (SaveTrackingKeys trackingKeys "" v = Except.error SaveErr.missingAdminKey) ∧
    (adminKey ≠ "" →
      (goLookup trackingKeys (normalizeTrackingVersion v) = none ∨
       ∃ k, goLookup trackingKeys (normalizeTrackingVersion v) = some k ∧ trimSpace k = "") →
      SaveTrackingKeys trackingKeys adminKey v = Except.error SaveErr.missingTrackingKey) ∧
    (v ≤ 0 → SaveTrackingKeys trackingKeys adminKey v
        = SaveTrackingKeys trackingKeys adminKey 1) := by
  refine ⟨?_, ?_, ?_⟩
  · rw [SaveTrackingKeys, if_pos rfl]
  · intro ha hk
    rw [SaveTrackingKeys, if_neg ha,
      if_neg (by have := normalizeTrackingVersion_pos v; omega)]
    rcases hk with hk | ⟨k, hk, htrim⟩
    · rw [hk]
    · rw [hk]
      show (if trimSpace k = "" then Except.error SaveErr.missingTrackingKey else _)
        = Except.error SaveErr.missingTrackingKey
      rw [if_pos htrim]
  · intro hv
    have h1 : normalizeTrackingVersion v = normalizeTrackingVersion 1 := by
      unfold normalizeTrackingVersion defaultTrackingKeyVersionInt
      rw [if_pos hv, if_neg (by omega)]
    rw [SaveTrackingKeys, SaveTrackingKeys, h1]

/-- Witness for C4 (amended) at an empty key map, where the missing-key
branch and the normalization equality are both exercised. -/
theorem c4_save_validation_witness :
    SaveTrackingKeys [] "" 0 = Except.error SaveErr.missingAdminKey ∧
    SaveTrackingKeys [] "x" 0 = Except.error SaveErr.missingTrackingKey ∧
    SaveTrackingKeys [] "x" 0 = SaveTrackingKeys [] "x" 1 := by
  have h := c4_save_validation [] "x" 0
  have h0 := c4_save_validation [] "" 0
  exact ⟨h0.1, h.2.1 (by decide) (Or.inl rfl), h.2.2 (by decide)⟩

/-- C4 counterexample: a call with `newCurrentVersion = 0` is not rejected —
it is normalized to version 1 and persists the keyring items — and a call
with `newCurrentVersion = 300 > 255` is likewise accepted. -/
theorem c4_save_counterexample :
    SaveTrackingKeys [(1, "k")] "a" 0
      = Except.ok [("tracking_key_v1", "k"), ("tracking_key", "k"),
          ("tracking_key_current_version", "1"), ("admin_key", "a")] ∧
    SaveTrackingKeys [(300, "k")] "a" 300
      = Except.ok [("tracking_key_v300", "k"), ("tracking_key", "k"),
          ("tracking_key_current_version", "300"), ("admin_key", "a")] := by
  exact ⟨rfl, rfl⟩

/-- C5 (amended): for every 32-byte key and every decoded blob shorter than
29 bytes, the Go `DecryptWithVersion` fails, but the error is
`ciphertextTooShort` exactly when the blob is empty or its version byte
matches and its length is below 13 (1 version byte + 12 nonce bytes);
lengths in `[13, 29)` with a matching version byte fail with the
authentication-failure error instead, and a mismatched version byte fails
with the version-mismatch error. -/
theorem c5_decrypt_short_blob (key : Bytes) (ver : Nat) (blob : Bytes)
    (hK : key.length = 32) (hlen : blob.length < 29) :
    ∃ e, DecryptWithVersion blob key ver = Except.error e ∧
      (e = GoErr.ciphertextTooShort ↔
        (blob.length = 0 ∨
         (blob.head? = some (normByteVersion ver) ∧ blob.length < 13))) := by
  have hcipher : aesNewCipher key = Except.ok key := by simp [aesNewCipher, hK]
  cases blob with
  | nil =>
    refine ⟨GoErr.ciphertextTooShort, ?_, by simp⟩
    rfl
  | cons b rest =>
    simp only [List.length_cons] at hlen
    by_cases hb : b = normByteVersion ver
    · by_cases hr : rest.length < 12
      · refine ⟨GoErr.ciphertextTooShort, ?_, ?_⟩
        · simp [DecryptWithVersion, hcipher, hb, gcmNonceSize, hr]
        · constructor
          · intro _
            right
            refine ⟨by simp [hb], ?_⟩
            simp only [List.length_cons]
            omega
          · intro _
            rfl
      · have hopen : gcmOpen key (rest.take 12) (rest.drop 12) = none := by
          have hshort : (rest.drop 12).length < gcmTagSize := by
            simp only [List.length_drop, gcmTagSize]
            omega
          rw [gcmOpen, if_pos hshort]
        refine ⟨GoErr.decryptErr, ?_, ?_⟩
        · simp [DecryptWithVersion, hcipher, hb, gcmNonceSize, hr, hopen]
        · have hne : GoErr.decryptErr ≠ GoErr.ciphertextTooShort := by decide
          constructor
          · intro h
            exact absurd h hne
          · simp only [List.length_cons]
            rintro (h | ⟨_, h⟩)
            · omega
            · omega
    · refine ⟨GoErr.keyVersionMismatch, ?_, ?_⟩
      · simp [DecryptWithVersion, hb]
      · have hne : GoErr.keyVersionMismatch ≠ GoErr.ciphertextTooShort := by decide
        constructor
        · intro h
          exact absurd h hne
        · simp only [List.length_cons, List.head?_cons]
          rintro (h | ⟨h, _⟩)
          · omega
          · injection h with h
            exact absurd h hb

/-- Witness for C5 (amended) at the one-byte blob `[1]` with version 1,
where the error is `ciphertextTooShort`. -/
theorem c5_decrypt_short_blob_witness :
    ∃ e, DecryptWithVersion [1] (List.replicate 32 0) 1 = Except.error e ∧
      (e = GoErr.ciphertextTooShort ↔
        (([1] : Bytes).length = 0 ∨
         (([1] : Bytes).head? = some (normByteVersion 1) ∧ ([1] : Bytes).length < 13))) :=
  c5_decrypt_short_blob (List.replicate 32 0) 1 [1] (by decide) (by decide)

/-- C5 counterexample: a decoded blob of length 20 (< 29) whose version byte
matches makes the worker `decryptWithKeys` fail with the WebCrypto
operation error — the worker module never produces a "ciphertext too
short" message — and makes the Go `DecryptWithVersion` fail with the
authentication-failure error, not `ciphertextTooShort`. -/
theorem c5_decrypt_counterexample :
    decryptWithKeys (1 :: List.replicate 19 0) [(1, List.replicate 32 0)] none
        = Except.error TSErr.opError ∧
    DecryptWithVersion (1 :: List.replicate 19 0) (List.replicate 32 0) 1
        = Except.error GoErr.decryptErr ∧
    (1 :: List.replicate 19 0 : Bytes).length < 29 ∧
    GoErr.decryptErr ≠ GoErr.ciphertextTooShort := by
  exact ⟨rfl, rfl, by decide, by decide⟩

theorem foldl_max_eq (l : List Int) (n : Int) :
    l.foldl (fun acc v => if acc < v then v else acc) n = l.foldl max n := by
  induction l generalizing n with
  | nil => rfl
  | cons a l ih =>
    simp only [List.foldl_cons]
    rw [show (if n < a then a else n) = max n a from ?_]
    · exact ih _
    · rcases lt_or_ge n a with h | h
      · rw [if_pos h, max_eq_right (le_of_lt h)]
      · rw [if_neg (by omega), max_eq_left h]

theorem le_foldl_max (l : List Int) (n : Int) :
    n ≤ l.foldl max n ∧ ∀ v ∈ l, v ≤ l.foldl max n := by
  induction l generalizing n with
  | nil => exact ⟨le_refl n, by simp⟩
  | cons a l ih =>
    have h := ih (max n a)
    refine ⟨le_trans (le_max_left n a) h.1, ?_⟩
    intro v hv
    rcases List.mem_cons.mp hv with rfl | hv
    · exact le_trans (le_max_right n v) h.1
    · exact h.2 v hv

theorem rotateNextVersion_eq (activeVersions : List Int) (currentVersion : Int)
    (h : 1 ≤ currentVersion) :
    rotateNextVersion activeVersions currentVersion
      = (activeVersions.foldl max currentVersion) + 1 := by
  unfold rotateNextVersion
  rw [if_neg (by omega), foldl_max_eq]

theorem mem_lt_rotateNextVersion (active : List Int) (cur v : Int) (h1 : 1 ≤ cur)
    (hv : v = cur ∨ v ∈ active) :
    v < rotateNextVersion active cur := by
  rw [rotateNextVersion_eq active cur h1]
  rcases hv with rfl | hv
  · have := (le_foldl_max active v).1
    omega
  · have := (le_foldl_max active cur).2 v hv
    omega

theorem goLookup_map_self (g : Int → String) (us : List Int) (v : Int) (hv : v ∈ us) :
    goLookup (us.map (fun u => (u, g u))) v = some (g v) := by
  induction us with
  | nil => cases hv
  | cons a us ih =>
    by_cases ha : a = v
    · subst ha
      unfold goLookup
      rw [List.map_cons, List.find?_cons_of_pos _ (by simp)]
      rfl
    · have hv' : v ∈ us := by
        rcases List.mem_cons.mp hv with h | h
        · exact absurd h.symm ha
        · exact h
      unfold goLookup at ih ⊢
      rw [List.map_cons, List.find?_cons_of_neg _ (by simpa using ha)]
      exact ih hv'

theorem goLookup_eq_of_mem (m : GoKeyMap) (v : Int) (k : String)
    (hmem : (v, k) ∈ m) (hnd : (m.map (fun e => e.1)).Nodup) :
    goLookup m v = some k := by
  induction m with
  | nil => cases hmem
  | cons a m ih =>
    have hnd' : a.1 ∉ m.map (fun e => e.1) ∧ (m.map (fun e => e.1)).Nodup := by
      rw [List.map_cons, List.nodup_cons] at hnd
      exact hnd
    rcases List.mem_cons.mp hmem with h | h
    · subst h
      unfold goLookup
      rw [List.find?_cons_of_pos _ (by simp)]
      rfl
    · have hv : v ∈ m.map (fun e => e.1) := List.mem_map.mpr ⟨(v, k), h, rfl⟩
      have hane : ¬ (a.1 = v) := by
        intro hEq
        rw [hEq] at hnd'
        exact hnd'.1 hv
      unfold goLookup at ih ⊢
      rw [List.find?_cons_of_neg _ (by simpa using hane)]
      exact ih h hnd'.2

theorem rotateUpdatedKeys_eq_map (trackingKeys : GoKeyMap) (nextVersion : Int)
    (newKey : String) (updatedVersions : List Int) :
    rotateUpdatedKeys trackingKeys nextVersion newKey updatedVersions
      = updatedVersions.map (fun v => (v,
          if v == nextVersion then newKey else (goLookup trackingKeys v).getD "")) := by
  unfold rotateUpdatedKeys
  apply List.map_congr_left
  intro v _
  by_cases h : v == nextVersion
  · simp [h]
  · simp [h]

/-- C6 (amended): the rotate command computes the next current version from
the *config's* version list alone —
`max(config versions ∪ {currentVersion}) + 1` — and saves the previously
loaded keys plus the freshly generated key at that version.  In the
consistent state where the loaded config is normalized (`currentVersion ≥
1`, every retained key version listed in the config's versions or equal to
the current version, Go-map key uniqueness), this equals
`max(retained versions ∪ {currentVersion}) + 1`, every previously retained
version still maps to its unchanged key after rotation, and the new
current version maps to the new key.  Outside that state — when
`LoadTrackingKeys` returns a key at a version missing from the config's
list (possible via the keyring's stored current-version pointer) — the new
version can collide with a retained version and overwrite its key (see the
counterexample below). -/
theorem c6_rotate_retains_keys (cfgVersions : List Int) (currentVersion : Int)
    (trackingKeys : GoKeyMap) (newKey : String)
    (hcur : 1 ≤ currentVersion)
    (hsub : ∀ v ∈ trackingKeys.map (fun e => e.1), v = currentVersion ∨ v ∈ cfgVersions)
    (hnd : (trackingKeys.map (fun e => e.1)).Nodup) :
    (rotateCompute cfgVersions currentVersion trackingKeys newKey).1
      = ((if cfgVersions.isEmpty then [currentVersion] else cfgVersions).foldl max
          currentVersion) + 1 ∧
    goLookup (rotateCompute cfgVersions currentVersion trackingKeys newKey).2.2
        (rotateCompute cfgVersions currentVersion trackingKeys newKey).1 = some newKey ∧
    ∀ v k, (v, k) ∈ trackingKeys →
      goLookup (rotateCompute cfgVersions currentVersion trackingKeys newKey).2.2 v
        = some k := by
  have hactive : ∀ v, (v = currentVersion ∨ v ∈ trackingKeys.map (fun e => e.1)) →
      v = currentVersion ∨
        v ∈ (if cfgVersions.isEmpty then [currentVersion] else cfgVersions) := by
    intro v hv
    rcases hv with h | h
    · exact Or.inl h
    · rcases hsub v h with h' | h'
      · exact Or.inl h'
      · by_cases he : cfgVersions.isEmpty
        · rw [List.isEmpty_iff] at he
          rw [he] at h'
          cases h'
        · rw [if_neg he]
          exact Or.inr h'
  set active := if cfgVersions.isEmpty then [currentVersion] else cfgVersions with hact
  set next := rotateNextVersion active currentVersion with hnext
  have hfst : (rotateCompute cfgVersions currentVersion trackingKeys newKey).1 = next := rfl
  have hkeys : (rotateCompute cfgVersions currentVersion trackingKeys newKey).2.2
      = rotateUpdatedKeys trackingKeys next newKey
        (List.insertionSort (fun a b => a ≤ b)
          ((trackingKeys.map (fun e => e.1)) ++ [next])) := rfl
  set updV := List.insertionSort (fun a b : Int => a ≤ b)
    ((trackingKeys.map (fun e => e.1)) ++ [next]) with hupdV
  have hmemUpd : ∀ v, v ∈ (trackingKeys.map (fun e => e.1)) ++ [next] → v ∈ updV := by
    intro v hv
    exact (List.perm_insertionSort _ _).mem_iff.mpr hv
  refine ⟨?_, ?_, ?_⟩
  · rw [hfst, hnext, rotateNextVersion_eq active currentVersion hcur]
  · rw [hfst, hkeys, rotateUpdatedKeys_eq_map,
      goLookup_map_self _ updV next (hmemUpd next (by simp))]
    simp
  · intro v k hmem
    have hvmem : v ∈ trackingKeys.map (fun e => e.1) :=
      List.mem_map.mpr ⟨(v, k), hmem, rfl⟩
    have hlt : v < next := by
      rw [hnext]
      exact mem_lt_rotateNextVersion active currentVersion v hcur
        (hactive v (Or.inr hvmem))
    have hne : (v == next) = false := by
      simp only [beq_eq_false_iff_ne, ne_eq]
      omega
    rw [hkeys, rotateUpdatedKeys_eq_map,
      goLookup_map_self _ updV v (hmemUpd v (by simp [hvmem]))]
    rw [hne]
    simp [goLookup_eq_of_mem trackingKeys v k hmem hnd]

/-- C6 counterexample: in the reachable state where the keyring retains a
key at a version missing from the config's version list (config versions
`[1]`, current version 1, loaded keys `{1: "a", 2: "b"}` — as
`LoadTrackingKeys` produces when the keyring's stored current-version
pointer is 2 but the config still lists only version 1), the rotate
command computes the next version from the config list alone and gets 2,
not `max(retained versions ∪ {currentVersion}) + 1 = 3`, and
`rotateUpdatedKeys` overwrites the previously retained version-2 key `"b"`
with the fresh key — so rotation does not always leave every previously
retained version's key unchanged. -/
theorem c6_rotate_counterexample :
    (rotateCompute [1] 1 [(1, "a"), (2, "b")] "n").1 = 2 ∧
    (([((1 : Int), "a"), (2, "b")].map (fun e => e.1)).foldl max 1) + 1 = 3 ∧
    goLookup [((1 : Int), "a"), (2, "b")] 2 = some "b" ∧
    goLookup (rotateCompute [1] 1 [(1, "a"), (2, "b")] "n").2.2 2 = some "n" ∧
    ("n" : String) ≠ "b" := by
  exact ⟨rfl, rfl, rfl, rfl, by decide⟩

/-- Witness for C6 at a two-key ring (versions 1 and 2, current 2) rotated
with a fresh key: the next version is 3, the new key is stored at 3, and
both old keys are retained unchanged. -/
theorem c6_rotate_retains_keys_witness :
    (rotateCompute [1, 2] 2 [(1, "a"), (2, "b")] "n").1
      = ((if ([1, 2] : List Int).isEmpty then [(2 : Int)] else [1, 2]).foldl max 2) + 1 ∧
    goLookup (rotateCompute [1, 2] 2 [(1, "a"), (2, "b")] "n").2.2
      (rotateCompute [1, 2] 2 [(1, "a"), (2, "b")] "n").1 = some "n" ∧
    ∀ v k, (v, k) ∈ ([(1, "a"), (2, "b")] : GoKeyMap) →
      goLookup (rotateCompute [1, 2] 2 [(1, "a"), (2, "b")] "n").2.2 v = some k :=
  c6_rotate_retains_keys [1, 2] 2 [(1, "a"), (2, "b")] "n" (by decide)
    (by decide) (by decide)

/-- C8 (amended): whenever `SaveTrackingKeys` succeeds, the unversioned
legacy slot `tracking_key` receives the key at the *normalized current
version* — which equals the version-1 key exactly when the normalized
current version is 1, not for every key set containing a version-1 key. -/
theorem c8_save_legacy_slot (trackingKeys : GoKeyMap) (adminKey : String)
    (currentVersion : Int) (items : List (String × String))
    (hok : SaveTrackingKeys trackingKeys adminKey currentVersion = Except.ok items) :
    ∃ currentKey versionedItems,
      goLookup trackingKeys (normalizeTrackingVersion currentVersion) = some currentKey ∧
      items = versionedItems ++
        [("tracking_key", currentKey),
         ("tracking_key_current_version", toString (normalizeTrackingVersion currentVersion)),
         ("admin_key", adminKey)] := by
  by_cases ha : adminKey = ""
  · rw [SaveTrackingKeys, if_pos ha] at hok
    exact Except.noConfusion hok
  · rw [SaveTrackingKeys, if_neg ha,
      if_neg (by have := normalizeTrackingVersion_pos currentVersion; omega)] at hok
    cases hcur : goLookup trackingKeys (normalizeTrackingVersion currentVersion) with
    | none =>
      rw [hcur] at hok
      exact Except.noConfusion hok
    | some currentKey =>
      rw [hcur] at hok
      have hok2 : (if trimSpace currentKey = "" then
            (Except.error SaveErr.missingTrackingKey : Except SaveErr (List (String × String)))
          else if (sortedTrackingVersionsFromMap trackingKeys).isEmpty then
            Except.error SaveErr.missingTrackingKey
          else
            Except.ok (saveKeyItems trackingKeys ++
              [("tracking_key", currentKey),
               ("tracking_key_current_version",
                 toString (normalizeTrackingVersion currentVersion)),
               ("admin_key", adminKey)])) = Except.ok items := hok
      by_cases ht : trimSpace currentKey = ""
      · rw [if_pos ht] at hok2
        exact Except.noConfusion hok2
      · rw [if_neg ht] at hok2
        by_cases he : (sortedTrackingVersionsFromMap trackingKeys).isEmpty
        · rw [if_pos he] at hok2
          exact Except.noConfusion hok2
        · rw [if_neg he] at hok2
          injection hok2 with hok2
          exact ⟨currentKey, saveKeyItems trackingKeys, rfl, hok2.symm⟩

/-- Witness for C8 (amended) at a single-key ring saved at version 1. -/
theorem c8_save_legacy_slot_witness :
    ∃ currentKey versionedItems,
      goLookup [((1 : Int), "k")] (normalizeTrackingVersion 1) = some currentKey ∧
      ([("tracking_key_v1", "k"), ("tracking_key", "k"),
        ("tracking_key_current_version", "1"), ("admin_key", "x")]
          : List (String × String)) = versionedItems ++
        [("tracking_key", currentKey),
         ("tracking_key_current_version", toString (normalizeTrackingVersion 1)),
         ("admin_key", "x")] :=
  c8_save_legacy_slot [(1, "k")] "x" 1
    [("tracking_key_v1", "k"), ("tracking_key", "k"),
     ("tracking_key_current_version", "1"), ("admin_key", "x")] rfl

/-- C8 counterexample: saving keys `{1: "a", 2: "b"}` with current version 2
persists `"b"` — the current version's key — under the unversioned legacy
slot, not the version-1 key `"a"`. -/
theorem c8_save_counterexample :
    SaveTrackingKeys [(1, "a"), (2, "b")] "adm" 2
      = Except.ok [("tracking_key_v1", "a"), ("tracking_key_v2", "b"),
          ("tracking_key", "b"), ("tracking_key_current_version", "2"),
          ("admin_key", "adm")] ∧
    goLookup [((1 : Int), "a"), (2, "b")] 1 = some "a" ∧
    ("b" : String) ≠ "a" := by
  exact ⟨rfl, rfl, by decide⟩

theorem parseIntJS_repr_le_100 :
    ∀ k : Nat, k ≤ 100 → parseIntJS (Nat.repr k) = some (k : Int) := by
  decide

theorem rateLimitStep_not_limited (st : KVState) (ip : String) (t : Nat) (b k : Nat)
    (hip : ¬ ip = "unknown") (hb : t / (RATE_LIMIT_WINDOW_SECONDS * 1000) = b)
    (hst : st (rateKey ip b) = some (Nat.repr k)) (hk : k < 100) :
    rateLimitStep st ip t
      = (false, fun q => if q = rateKey ip b then some (Nat.repr (k + 1)) else st q) := by
  have hparse := parseIntJS_repr_le_100 k (by omega)
  simp only [rateLimitStep, hip, if_false, hb, hst, Option.getD_some, hparse,
    RATE_LIMIT_MAX_REQUESTS, Int.toNat_natCast]
  rw [if_neg (by omega)]

theorem rateLimitStep_limited_at_100 (st : KVState) (ip : String) (t : Nat) (b : Nat)
    (hip : ¬ ip = "unknown") (hb : t / (RATE_LIMIT_WINDOW_SECONDS * 1000) = b)
    (hst : st (rateKey ip b) = some (Nat.repr 100)) :
    rateLimitStep st ip t = (true, st) := by
  have hparse := parseIntJS_repr_le_100 100 (le_refl _)
  simp only [rateLimitStep, hip, if_false, hb, hst, Option.getD_some, hparse,
    RATE_LIMIT_MAX_REQUESTS, Int.toNat_natCast]
  rw [if_pos (by omega)]

theorem rateLimitStep_fresh (st : KVState) (ip : String) (t : Nat) (b : Nat)
    (hip : ¬ ip = "unknown") (hb : t / (RATE_LIMIT_WINDOW_SECONDS * 1000) = b)
    (hst : st (rateKey ip b) = none) :
    rateLimitStep st ip t
      = (false, fun q => if q = rateKey ip b then some (Nat.repr 1) else st q) := by
  simp only [rateLimitStep, hip, if_false, hb, hst, Option.getD_none,
    show parseIntJS "0" = some (0 : Int) from rfl,
    RATE_LIMIT_MAX_REQUESTS]
  rw [if_neg (by omega), show ((0 : Int).toNat + 1) = 1 from rfl]

theorem rateCalls_append (kv : Option KVState) (ip : String) (ts1 ts2 : List Nat) :
    rateCalls kv ip (ts1 ++ ts2)
      = ((rateCalls kv ip ts1).1 ++ (rateCalls (rateCalls kv ip ts1).2 ip ts2).1,
         (rateCalls (rateCalls kv ip ts1).2 ip ts2).2) := by
  induction ts1 generalizing kv with
  | nil => rfl
  | cons t ts ih =>
    simp only [List.cons_append, rateCalls, List.append_eq, ih]

theorem rateCalls_false_run (ip : String) (b : Nat) (hip : ¬ ip = "unknown") :
    ∀ (ts : List Nat), (∀ t ∈ ts, t / (RATE_LIMIT_WINDOW_SECONDS * 1000) = b) →
    ∀ (k : Nat) (st : KVState), st (rateKey ip b) = some (Nat.repr k) →
      k + ts.length ≤ 100 →
      ∃ st1, rateCalls (some st) ip ts = (List.replicate ts.length false, some st1) ∧
        st1 (rateKey ip b) = some (Nat.repr (k + ts.length)) ∧
        ∀ q, q ≠ rateKey ip b → st1 q = st q := by
  intro ts
  induction ts with
  | nil =>
    intro _ k st hst _
    exact ⟨st, rfl, by simpa using hst, fun q _ => rfl⟩
  | cons t ts ih =>
    intro hts k st hst hbound
    have hklt : k < 100 := by
      simp only [List.length_cons] at hbound
      omega
    have hstep := rateLimitStep_not_limited st ip t b k hip (hts t (by simp)) hst hklt
    set stW : KVState :=
      fun q => if q = rateKey ip b then some (Nat.repr (k + 1)) else st q with hstWdef
    have hstWkey : stW (rateKey ip b) = some (Nat.repr (k + 1)) := by
      simp [hstWdef]
    obtain ⟨st1, hrc, hkey, hframe⟩ := ih (fun u hu => hts u (List.mem_cons_of_mem t hu))
      (k + 1) stW hstWkey (by simp only [List.length_cons] at hbound ⊢; omega)
    have hcall : isRateLimited (some st) ip t = (false, some stW) := by
      show ((rateLimitStep st ip t).1, some (rateLimitStep st ip t).2) = (false, some stW)
      rw [hstep]
    refine ⟨st1, ?_, ?_, ?_⟩
    · show ((isRateLimited (some st) ip t).1 ::
          (rateCalls (isRateLimited (some st) ip t).2 ip ts).1,
          (rateCalls (isRateLimited (some st) ip t).2 ip ts).2)
        = (List.replicate (t :: ts).length false, some st1)
      rw [hcall]
      simp only [hrc, List.length_cons, List.replicate_succ]
    · have harith : k + (t :: ts).length = (k + 1) + ts.length := by
        simp only [List.length_cons]
        omega
      rw [harith]
      exact hkey
    · intro q hq
      rw [hframe q hq, hstWdef]
      simp [hq]

/-- C7: with threshold 100 and fixed one-hour buckets, 101 sequential
`isRateLimited` calls for the same non-"unknown" identifier, all falling in
hour bucket `b`, starting from a state with no counter for that bucket,
return `false` for each of the first 100 calls — the stored counter ending
at 100 — and `true` on the 101st call without further writes; a subsequent
call falling in bucket `b+1` (whose counter is absent) returns `false`
again regardless of the prior count. -/
theorem c7_rate_limit_101 (ip : String) (hip : ip ≠ "unknown") (b : Nat)
    (ts : List Nat) (hlen : ts.length = 101)
    (hts : ∀ t ∈ ts, t / (RATE_LIMIT_WINDOW_SECONDS * 1000) = b)
    (st0 : KVState) (h0 : st0 (rateKey ip b) = none)
    (t' : Nat) (ht' : t' / (RATE_LIMIT_WINDOW_SECONDS * 1000) = b + 1)
    (hdiff : rateKey ip (b + 1) ≠ rateKey ip b)
    (h1 : st0 (rateKey ip (b + 1)) = none) :
    ∃ st1, rateCalls (some st0) ip ts = (List.replicate 100 false ++ [true], some st1) ∧
      st1 (rateKey ip b) = some (Nat.repr 100) ∧
      (isRateLimited (some st1) ip t').1 = false := by
  obtain ⟨t0, rest, rfl⟩ : ∃ t0 rest, ts = t0 :: rest := by
    cases ts with
    | nil => simp at hlen
    | cons a l => exact ⟨a, l, rfl⟩
  have hrest : rest.length = 100 := by simpa using hlen
  have hrne : rest ≠ [] := by
    intro h
    rw [h] at hrest
    simp at hrest
  obtain ⟨mid, tlast, hmid⟩ : ∃ mid tlast, rest = mid ++ [tlast] :=
    ⟨rest.dropLast, rest.getLast hrne, (List.dropLast_append_getLast hrne).symm⟩
  have hmidlen : mid.length = 99 := by
    have := congrArg List.length hmid
    simp only [List.length_append, List.length_singleton] at this
    omega
  -- first call: fresh counter, writes 1
  have hstep0 := rateLimitStep_fresh st0 ip t0 b hip (hts t0 (by simp)) h0
  set stA : KVState :=
    fun q => if q = rateKey ip b then some (Nat.repr 1) else st0 q with hstAdef
  have hcall0 : isRateLimited (some st0) ip t0 = (false, some stA) := by
    show ((rateLimitStep st0 ip t0).1, some (rateLimitStep st0 ip t0).2) = (false, some stA)
    rw [hstep0]
  have hstAkey : stA (rateKey ip b) = some (Nat.repr 1) := by simp [hstAdef]
  -- calls 2..100: 99 further false calls ending at counter 100
  have hmidbuckets : ∀ t ∈ mid, t / (RATE_LIMIT_WINDOW_SECONDS * 1000) = b := by
    intro u hu
    exact hts u (by
      rw [hmid]
      exact List.mem_cons_of_mem t0 (List.mem_append_left _ hu))
  obtain ⟨stB, hrunB, hkeyB, hframeB⟩ := rateCalls_false_run ip b hip mid hmidbuckets 1 stA
    hstAkey (by omega)
  have hkeyB100 : stB (rateKey ip b) = some (Nat.repr 100) := by
    rw [hkeyB, hmidlen]
  -- call 101: limited, no write
  have hlastbucket : tlast / (RATE_LIMIT_WINDOW_SECONDS * 1000) = b := by
    exact hts tlast (by
      rw [hmid]
      exact List.mem_cons_of_mem t0 (List.mem_append_right _ (by simp)))
  have hsteplast := rateLimitStep_limited_at_100 stB ip tlast b hip hlastbucket hkeyB100
  have hcalllast : isRateLimited (some stB) ip tlast = (true, some stB) := by
    show ((rateLimitStep stB ip tlast).1, some (rateLimitStep stB ip tlast).2)
      = (true, some stB)
    rw [hsteplast]
  refine ⟨stB, ?_, hkeyB100, ?_⟩
  · show ((isRateLimited (some st0) ip t0).1 ::
        (rateCalls (isRateLimited (some st0) ip t0).2 ip rest).1,
        (rateCalls (isRateLimited (some st0) ip t0).2 ip rest).2)
      = (List.replicate 100 false ++ [true], some stB)
    rw [hcall0]
    show (false :: (rateCalls (some stA) ip rest).1, (rateCalls (some stA) ip rest).2) = _
    rw [hmid, rateCalls_append, hrunB]
    show (false :: (List.replicate mid.length false ++ (rateCalls (some stB) ip [tlast]).1),
        (rateCalls (some stB) ip [tlast]).2) = _
    have hone : rateCalls (some stB) ip [tlast] = ([true], some stB) := by
      show ((isRateLimited (some stB) ip tlast).1 ::
          (rateCalls (isRateLimited (some stB) ip tlast).2 ip []).1,
          (rateCalls (isRateLimited (some stB) ip tlast).2 ip []).2) = ([true], some stB)
      rw [hcalllast]
      rfl
    rw [hone, hmidlen]
    rfl
  · -- the next-bucket call starts from an absent counter and is not limited
    have hB1 : stB (rateKey ip (b + 1)) = none := by
      rw [hframeB _ hdiff, hstAdef]
      simp only [if_neg hdiff]
      exact h1
    have hstep' := rateLimitStep_fresh stB ip t' (b + 1) hip ht' hB1
    show (rateLimitStep stB ip t').1 = false
    rw [hstep']

/-- Witness for C7: a concrete identifier, 101 calls at time 0 (bucket 0)
and a call at the next hour boundary. -/
theorem c7_rate_limit_101_witness :
    ∃ st1, rateCalls (some (fun _ => none)) "ip" (List.replicate 101 0)
        = (List.replicate 100 false ++ [true], some st1) ∧
      st1 (rateKey "ip" 0) = some (Nat.repr 100) ∧
      (isRateLimited (some st1) "ip" 3600000).1 = false :=
  c7_rate_limit_101 "ip" (by decide) 0 (List.replicate 101 0) (by decide)
    (by
      intro t ht
      rw [List.eq_of_mem_replicate ht]
      decide)
    (fun _ => none) rfl 3600000 (by decide) (by decide) rfl

/-- C10: a stored counter string that does not parse as a number, or parses
negative, is treated as count 0: the call is not rate-limited and the
counter is reset to "1", so a corrupted stored counter can never report an
identifier as limited. -/
theorem c10_rate_malformed_counter (ip : String) (hip : ip ≠ "unknown") (t : Nat)
    (st : KVState) (s : String)
    (hst : st (rateKey ip (t / (RATE_LIMIT_WINDOW_SECONDS * 1000))) = some s)
    (hbad : parseIntJS s = none ∨ ∃ z, parseIntJS s = some z ∧ z < 0) :
    ∃ st1, isRateLimited (some st) ip t = (false, some st1) ∧
      st1 (rateKey ip (t / (RATE_LIMIT_WINDOW_SECONDS * 1000))) = some "1" ∧
      ∀ q, q ≠ rateKey ip (t / (RATE_LIMIT_WINDOW_SECONDS * 1000)) → st1 q = st q := by
  have hcount : (match parseIntJS ((st (rateKey ip
      (t / (RATE_LIMIT_WINDOW_SECONDS * 1000)))).getD "0") with
      | none => 0
      | some z => z.toNat) = 0 := by
    rw [hst, Option.getD_some]
    rcases hbad with h | ⟨z, hz, hneg⟩
    · rw [h]
    · rw [hz]
      show z.toNat = 0
      omega
  have hstep : rateLimitStep st ip t = (false,
      fun q => if q = rateKey ip (t / (RATE_LIMIT_WINDOW_SECONDS * 1000))
        then some (Nat.repr 1) else st q) := by
    simp only [rateLimitStep, hip, if_false, hcount, RATE_LIMIT_MAX_REQUESTS, Nat.zero_add]
    rw [if_neg (by omega)]
  refine ⟨(rateLimitStep st ip t).2, ?_, ?_, ?_⟩
  · show ((rateLimitStep st ip t).1, some (rateLimitStep st ip t).2)
      = (false, some ((rateLimitStep st ip t).2))
    rw [hstep]
  · rw [hstep]
    show (if rateKey ip (t / (RATE_LIMIT_WINDOW_SECONDS * 1000))
          = rateKey ip (t / (RATE_LIMIT_WINDOW_SECONDS * 1000))
        then some (Nat.repr 1)
        else st (rateKey ip (t / (RATE_LIMIT_WINDOW_SECONDS * 1000)))) = some "1"
    rw [if_pos rfl]
    rfl
  · intro q hq
    rw [hstep]
    show (if q = rateKey ip (t / (RATE_LIMIT_WINDOW_SECONDS * 1000))
        then some (Nat.repr 1) else st q) = st q
    rw [if_neg hq]

/-- Witness for C10 at the unparsable stored string "abc". -/
theorem c10_rate_malformed_counter_witness :
    ∃ st1, isRateLimited
        (some (fun q => if q = rateKey "ip" 0 then some "abc" else none)) "ip" 0
        = (false, some st1) ∧
      st1 (rateKey "ip" (0 / (RATE_LIMIT_WINDOW_SECONDS * 1000))) = some "1" ∧
      ∀ q, q ≠ rateKey "ip" (0 / (RATE_LIMIT_WINDOW_SECONDS * 1000)) →
        st1 q = (fun q => if q = rateKey "ip" 0 then some "abc" else none) q :=
  c10_rate_malformed_counter "ip" (by decide) 0
    (fun q => if q = rateKey "ip" 0 then some "abc" else none) "abc"
    (by simp) (Or.inl rfl)

/-- C9: whenever some retained key version decrypts the blob, `handleQuery`
returns the decrypted recipient and sent-at time (in milliseconds) together
with exactly the persisted opens for that tracking id in ascending
`opened_at` order, `total_opens` equal to their number, `human_opens` equal
to the number of non-bot opens, and `first_human_open` equal to the
earliest open whose bot flag is false (or `null` when every open is a
bot). -/
theorem c9_query_result (db : List OpenRow) (blob : Bytes) (keys : KeyMap)
    (cv : Option Nat) (p : PixelPayload)
    (hdec : decryptWithKeys blob keys cv = Except.ok p) :
    ∃ res, handleQuery db blob keys cv = Except.ok res ∧
      res.recipient = p.r ∧
      res.sent_at_ms = p.t * 1000 ∧
      res.opens.Perm ((db.filter (fun r => r.tracking_id == blob)).map rowToEntry) ∧
      List.Pairwise (fun a b : OpenEntry => a.openedAt ≤ b.openedAt) res.opens ∧
      res.total_opens = res.opens.length ∧
      res.human_opens = res.opens.countP (fun o => !o.isBot) ∧
      (res.first_human_open = none ↔ ∀ o ∈ res.opens, o.isBot = true) ∧
      (∀ h, res.first_human_open = some h →
        h ∈ res.opens ∧ h.isBot = false ∧
        ∀ o ∈ res.opens, o.isBot = false → h.openedAt ≤ o.openedAt) := by
  have heq : handleQuery db blob keys cv = Except.ok
      { tracking_id := blob
        recipient := p.r
        sent_at_ms := p.t * 1000
        opens := (queryRows db blob).map rowToEntry
        total_opens := ((queryRows db blob).map rowToEntry).length
        human_opens := (((queryRows db blob).map rowToEntry).filter
          (fun o => !o.isBot)).length
        first_human_open := (((queryRows db blob).map rowToEntry).filter
          (fun o => !o.isBot)).head? } := by
    rw [handleQuery, hdec]
  set opens := (queryRows db blob).map rowToEntry with hopens
  set humans := opens.filter (fun o => !o.isBot) with hhumans
  have hsortedRows : List.Pairwise (fun a b : OpenRow => a.opened_at ≤ b.opened_at)
      (queryRows db blob) :=
    List.sorted_insertionSort _ _
  have hsorted : List.Pairwise (fun a b : OpenEntry => a.openedAt ≤ b.openedAt) opens := by
    rw [hopens, List.pairwise_map]
    exact hsortedRows
  refine ⟨_, heq, rfl, rfl, ?_, hsorted, rfl, ?_, ?_, ?_⟩
  · rw [hopens]
    exact (List.perm_insertionSort _ _).map rowToEntry
  · rw [List.countP_eq_length_filter]
  · rw [List.head?_eq_none_iff, hhumans, List.filter_eq_nil_iff]
    constructor
    · intro hall o ho
      have := hall o ho
      simpa using this
    · intro hall o ho
      simp [hall o ho]
  · intro h hh
    have hsortedHumans : List.Pairwise (fun a b : OpenEntry => a.openedAt ≤ b.openedAt)
        humans := hsorted.filter _
    cases hhum : humans with
    | nil =>
      rw [hhum] at hh
      cases hh
    | cons a tl =>
      rw [hhum, List.head?_cons] at hh
      have hh' : some a = some h := hh
      obtain rfl : a = h := by injection hh'
      have hamem : a ∈ humans := by
        rw [hhum]
        simp
      have hmemfil := List.mem_filter.mp (hhumans ▸ hamem)
      refine ⟨hmemfil.1, by simpa using hmemfil.2, ?_⟩
      intro o ho hbot
      have homem : o ∈ humans := by
        rw [hhumans]
        exact List.mem_filter.mpr ⟨ho, by simp [hbot]⟩
      rw [hhum] at homem
      rcases List.mem_cons.mp homem with rfl | htl
      · exact le_refl _
      · rw [hhum] at hsortedHumans
        exact (List.pairwise_cons.mp hsortedHumans).1 o htl

/-- Witness for C9 at the sample blob with a three-row table: two rows for
the blob (one bot, one human) and one row for a different tracking id. -/
theorem c9_query_result_witness :
    ∃ res, handleQuery
        [⟨sampleBlob, "2024-02", "ip1", none, none, none, none, 1, some "bot"⟩,
         ⟨sampleBlob, "2024-01", "ip2", none, none, none, none, 0, none⟩,
         ⟨[9], "2024-03", "ip3", none, none, none, none, 0, none⟩]
        sampleBlob [(3, sampleKey)] (some 3) = Except.ok res ∧
      res.recipient = samplePayload.r ∧
      res.sent_at_ms = samplePayload.t * 1000 ∧
      res.opens.Perm ((([⟨sampleBlob, "2024-02", "ip1", none, none, none, none, 1, some "bot"⟩,
         ⟨sampleBlob, "2024-01", "ip2", none, none, none, none, 0, none⟩,
         ⟨[9], "2024-03", "ip3", none, none, none, none, 0, none⟩]
           : List OpenRow).filter
          (fun r => r.tracking_id == sampleBlob)).map rowToEntry) ∧
      List.Pairwise (fun a b : OpenEntry => a.openedAt ≤ b.openedAt) res.opens ∧
      res.total_opens = res.opens.length ∧
      res.human_opens = res.opens.countP (fun o => !o.isBot) ∧
      (res.first_human_open = none ↔ ∀ o ∈ res.opens, o.isBot = true) ∧
      (∀ h, res.first_human_open = some h →
        h ∈ res.opens ∧ h.isBot = false ∧
        ∀ o ∈ res.opens, o.isBot = false → h.openedAt ≤ o.openedAt) :=
  c9_query_result
    [⟨sampleBlob, "2024-02", "ip1", none, none, none, none, 1, some "bot"⟩,
     ⟨sampleBlob, "2024-01", "ip2", none, none, none, none, 0, none⟩,
     ⟨[9], "2024-03", "ip3", none, none, none, none, 0, none⟩]
    sampleBlob [(3, sampleKey)] (some 3) samplePayload rfl

end Tracking
